import Mathlib

/-!
Verification development for the `zhang-calibration` repository.

The Python sources are shallowly embedded over exact rationals (`ℚ` stands for the
floating-point values; machine floats are idealised as exact rationals).  The central
object is `ProjectionJacobian` from `src/jacobian.py`: its `compute` method assembles a
block-sparse Jacobian from two compiled derivative-block functions.  The sympy-compiled
block functions themselves are kept abstract (`BlockFun`): every structural theorem below
holds for an arbitrary pair of block functions, which is exactly the strength the claims
about shape, placement, sparsity and epsilon-perturbation require.

Collaborator modules `distortion.py` and `mathutils.py` are imported by the sources but
are not part of the provided tree; where one of their functions decides a claim it is
either modelled from the spec (marked in its doc comment) or kept as an abstract
function parameter.
-/

namespace ZhangCalibration

/-- A 3D model point (X, Y, Z), one row of an (N, 3) numpy array. -/
abbrev Pt3 := ℚ × ℚ × ℚ

/-- Variants of distortion.DistortionModel referenced by `jacobian.py`. -/
inductive DistortionModel
  | RadialTangential
  | FishEye
  deriving DecidableEq

/-- Mirrors ProjectionJacobian._numExtrinsicParamsPerView (jacobian.py line 15). -/
def numExtrinsicParamsPerView : ℕ := 6

/-- Mirrors ProjectionJacobian._epsilon = 1e-100 (jacobian.py line 16). -/
def epsilon : ℚ := 1 / 10 ^ 100

/-- Length of getIntrinsicRadTanSymbols(): the ten symbols α β γ uc vc k1 k2 p1 p2 k3
(jacobian.py line 177); this is the L of the spec. -/
def numIntrinsicSymbols : ℕ := 10

/-- A compiled Jacobian-block function, as produced by createLambdaFunction from a 2×T
sympy expression matrix: it takes the ordered parameter values (the ten intrinsic plus
six extrinsic values) and the point coordinates X Y Z, and is indexed by a row
(0 = u-derivative, 1 = v-derivative) and a column.  Kept abstract: the theorems hold for
every such function. -/
abbrev BlockFun := List ℚ → ℚ → ℚ → ℚ → ℕ → ℕ → ℚ

/-- Mirrors ProjectionJacobian._computeJacobianBlock (jacobian.py lines 46–77):
adds epsilon to each parameter value and to each point coordinate, evaluates the block
function, and interleaves the u-derivative rows (even rows) with the v-derivative rows
(odd rows), giving a (2N, T) block. -/
def computeJacobianBlock (f : BlockFun) (T : ℕ)
    (intrinsicValues extrinsicValues : List ℚ) (modelPoints : List Pt3) :
    List (List ℚ) :=
  modelPoints.flatMap (fun p =>
    let P := (intrinsicValues ++ extrinsicValues).map (fun v => v + epsilon)
    let X := p.1 + epsilon
    let Y := p.2.1 + epsilon
    let Z := p.2.2 + epsilon
    [(List.range T).map (fun c => f P X Y Z 0 c),
     (List.range T).map (fun c => f P X Y Z 1 c)])

/-- Mirrors the slice P[:-M * 6] of ProjectionJacobian.compute (jacobian.py line 113).
In Python, when M = 0 the slice P[:-0] is P[:0], the empty list. -/
def intrinsicValuesOf (P : List ℚ) (M : ℕ) : List ℚ :=
  if M = 0 then [] else P.take (P.length - M * numExtrinsicParamsPerView)

/-- Mirrors the view loop of ProjectionJacobian.compute (jacobian.py lines 119–137).
Each view i contributes 2N rows; a row is the intrinsic-block row (columns [0, L)),
then zeros up to column L + 6i, then the extrinsic-block row, then zeros up to
column K = L + 6M — exactly the effect of writing both blocks into the zero matrix
np.zeros((2*MN, K)). -/
def computeAux (fI fE : BlockFun) (P intrinsicValues : List ℚ) (M : ℕ) :
    ℕ → List (List Pt3) → List (List ℚ)
  | _, [] => []
  | i, modelPoints :: rest =>
    let L := numIntrinsicSymbols
    let K := L + numExtrinsicParamsPerView * M
    let colIndexJ := L + i * numExtrinsicParamsPerView
    let extrinsicValues := (P.drop colIndexJ).take numExtrinsicParamsPerView
    let intrinsicBlock := computeJacobianBlock fI L intrinsicValues extrinsicValues modelPoints
    let extrinsicBlock := computeJacobianBlock fE numExtrinsicParamsPerView
        intrinsicValues extrinsicValues modelPoints
    List.zipWith (fun ir er =>
        ir ++ List.replicate (colIndexJ - L) (0 : ℚ) ++ er
           ++ List.replicate (K - (colIndexJ + numExtrinsicParamsPerView)) (0 : ℚ))
      intrinsicBlock extrinsicBlock
    ++ computeAux fI fE P intrinsicValues M (i + 1) rest

/-- Mirrors ProjectionJacobian.compute (jacobian.py lines 100–137), with the two
lambdified block functions abstracted as fI and fE. -/
def compute (fI fE : BlockFun) (P : List ℚ) (allModelPoints : List (List Pt3)) :
    List (List ℚ) :=
  computeAux fI fE P (intrinsicValuesOf P allModelPoints.length) allModelPoints.length
    0 allModelPoints

/-- Entry (r, c) of a row-major matrix, reading 0 outside the stored area. -/
def entry (J : List (List ℚ)) (r c : ℕ) : ℚ := (J.getD r []).getD c 0

/-- First row index of view i in the assembled Jacobian: twice the number of model
points of the earlier views. -/
def rowStart (vs : List (List Pt3)) (i : ℕ) : ℕ :=
  2 * ((vs.take i).map List.length).sum

/-- The value _computeJacobianBlock feeds to a block function: every parameter value and
every point coordinate perturbed by epsilon. -/
def evalBlockFun (f : BlockFun) (iv ev : List ℚ) (p : Pt3) (d c : ℕ) : ℚ :=
  f ((iv ++ ev).map (fun v => v + epsilon)) (p.1 + epsilon) (p.2.1 + epsilon)
    (p.2.2 + epsilon) d c

/-- One assembled Jacobian row for view i of M (d = 0 the u-derivative row,
d = 1 the v-derivative row of one point p). -/
def viewRow (fI fE : BlockFun) (iv ev : List ℚ) (M i : ℕ) (p : Pt3) (d : ℕ) :
    List ℚ :=
  (List.range numIntrinsicSymbols).map (fun c => evalBlockFun fI iv ev p d c)
  ++ List.replicate (numIntrinsicSymbols + i * numExtrinsicParamsPerView
        - numIntrinsicSymbols) (0 : ℚ)
  ++ (List.range numExtrinsicParamsPerView).map (fun c => evalBlockFun fE iv ev p d c)
  ++ List.replicate (numIntrinsicSymbols + numExtrinsicParamsPerView * M
        - (numIntrinsicSymbols + i * numExtrinsicParamsPerView
            + numExtrinsicParamsPerView)) (0 : ℚ)

/-! ## Constructor and error model (jacobian.py lines 17–25) -/

/-- The engine state built by ProjectionJacobian.__init__ in the supported branch: the
two compiled derivative-block evaluators. -/
structure ProjectionJacobianEngine where
  intrinsicJacobianBlockFunction : BlockFun
  extrinsicJacobianBlockFunctions : BlockFun

/-- The construction-time failure of ProjectionJacobian.__init__ (a raised
NotImplementedError in Python; the spec's error taxonomy calls this failure class
ConfigurationError). -/
inductive ConfigurationError
  | notImplemented (msg : String)
  deriving DecidableEq

/-- Mirrors ProjectionJacobian.__init__ (jacobian.py lines 17–25).  The sympy
differentiation and lambdify steps, which only run in the RadialTangential branch, are
abstracted as the argument radTanBlocks; the unsupported branch raises before any
derivative expression is built or evaluated. -/
def ProjectionJacobianInit (radTanBlocks : BlockFun × BlockFun)
    (distortionModel : DistortionModel) :
    Except ConfigurationError ProjectionJacobianEngine :=
  match distortionModel with
  | .RadialTangential => .ok ⟨radTanBlocks.1, radTanBlocks.2⟩
  | .FishEye =>
      .error (.notImplemented "Fish eye distortion model not yet supported")

/-! ## Radial-tangential projection formula (jacobian.py lines 146–173) -/

/-- Intrinsic matrix A exactly as laid out in createExpressionIntrinsicProjectionRadTan
(jacobian.py lines 154–158). -/
def intrinsicMatrixA (α β γ uc vc : ℚ) : List (List ℚ) :=
  [[α, γ, uc], [0, β, vc], [0, 0, 1]]

/-- Modelled from the spec: distortion.projectWithDistortion is imported by jacobian.py
but distortion.py is not under src/.  Follows spec §4.1 word for word: normalize
x = X/Z, y = Y/Z; r² = x² + y²; radial factor 1 + k1·r² + k2·r⁴ + k3·r⁶; tangential
terms; then apply the 3×3 intrinsic matrix A to (x_d, y_d, 1) and drop the homogeneous
coordinate. -/
def projectWithDistortion (A : List (List ℚ)) (cP : Pt3)
    (k : ℚ × ℚ × ℚ × ℚ × ℚ) : ℚ × ℚ :=
  match k, cP with
  | (k1, k2, p1, p2, k3), (X, Y, Z) =>
    let x := X / Z
    let y := Y / Z
    let r2 := x ^ 2 + y ^ 2
    let radial := 1 + k1 * r2 + k2 * r2 ^ 2 + k3 * r2 ^ 3
    let xd := x * radial + 2 * p1 * x * y + p2 * (r2 + 2 * x ^ 2)
    let yd := y * radial + p1 * (r2 + 2 * y ^ 2) + 2 * p2 * x * y
    ((A.getD 0 []).getD 0 0 * xd + (A.getD 0 []).getD 1 0 * yd
        + (A.getD 0 []).getD 2 0 * 1,
     (A.getD 1 []).getD 0 0 * xd + (A.getD 1 []).getD 1 0 * yd
        + (A.getD 1 []).getD 2 0 * 1)

/-! ## VirtualCamera (virtualcamera.py) -/

/-- A homogeneous point, one row of an (N, 4) numpy array. -/
abbrev Pt4 := ℚ × ℚ × ℚ × ℚ

/-- Modelled from the spec: mathutils.homog (mathutils.py is not under src/); spec §4.2
says a point transform appends 1 to the point. -/
def homog (p : Pt3) : Pt4 := (p.1, p.2.1, p.2.2, 1)

/-- Row r of a 4×4 matrix dotted with a homogeneous point. -/
def mat4Row (Mmat : List (List ℚ)) (r : ℕ) (p : Pt4) : ℚ :=
  (Mmat.getD r []).getD 0 0 * p.1 + (Mmat.getD r []).getD 1 0 * p.2.1
    + (Mmat.getD r []).getD 2 0 * p.2.2.1 + (Mmat.getD r []).getD 3 0 * p.2.2.2

/-- The product camera_M_board @ homog(point) of virtualcamera.py line 32, one point at
a time. -/
def transformPoint (Mmat : List (List ℚ)) (p : Pt4) : Pt4 :=
  (mat4Row Mmat 0 p, mat4Row Mmat 1 p, mat4Row Mmat 2 p, mat4Row Mmat 3 p)

/-- Mirrors np.eye(4) (virtualcamera.py line 34). -/
def eye4 : List (List ℚ) :=
  [[1, 0, 0, 0], [0, 1, 0, 0], [0, 0, 1, 0], [0, 0, 0, 1]]

/-- Collaborator mu.project (mathutils.py is not under src/), kept abstract: it maps an
intrinsic matrix, an extrinsic 4×4 matrix and camera-frame points to sensor points
(already restricted to the first two columns).  The independence claim is proved for
every such function. -/
abbrev ProjectFun := List (List ℚ) → List (List ℚ) → List Pt4 → List (ℚ × ℚ)

/-- Mirrors VirtualCamera.__init__ (virtualcamera.py lines 9–14). -/
structure VirtualCamera where
  intrinsicMatrix : List (List ℚ)
  distortionVector : List ℚ
  imageWidth : ℚ
  imageHeight : ℚ

/-- Application of a numpy boolean mask to an array (virtualcamera.py line 40). -/
def maskFilter {A : Type} (mask : List Bool) (xs : List A) : List A :=
  ((mask.zip xs).filter (fun bx => bx.1)).map (fun bx => bx.2)

/-- Mirrors VirtualCamera.measureDetectedPoints (virtualcamera.py lines 28–40):
transform the board corners into the camera frame, project them with the stored
intrinsic matrix and an identity extrinsic, and keep the measured points (and matching
corner positions) strictly inside the image bounds. -/
def measureDetectedPoints (project : ProjectFun) (cam : VirtualCamera)
    (cornerPositions : List Pt3) (boardPoseInCamera : List (List ℚ)) :
    List (ℚ × ℚ) × List Pt3 :=
  let cornerPointsInCamera :=
    cornerPositions.map (fun p => transformPoint boardPoseInCamera (homog p))
  let measuredPoints := project cam.intrinsicMatrix eye4 cornerPointsInCamera
  let pointInImage := measuredPoints.map (fun q =>
      decide (0 < q.1) && decide (q.1 < cam.imageWidth)
        && decide (0 < q.2) && decide (q.2 < cam.imageHeight))
  (maskFilter pointInImage measuredPoints, maskFilter pointInImage cornerPositions)

/-! ## drawCross (visualize.py lines 26–36) -/

/-- Mirrors np.arange(a, b) over the integers. -/
def arange (a b : ℤ) : List ℤ := (List.range (b - a).toNat).map (fun n => a + n)

/-- Mirrors np.clip(xs, lo, hi); note numpy clips to the inclusive range [lo, hi]. -/
def clipList (lo hi : ℤ) (xs : List ℤ) : List ℤ := xs.map (fun x => max lo (min x hi))

/-- Mirrors drawCross (visualize.py lines 26–36) as the list of (row, col) indices the
two assignments image[v, colRange] and image[rowRange, u] write.  u and v stand for the
already-rounded integer point np.rint(point).astype(int); h, w are image.shape[:2]. -/
def drawCrossWrites (h w : ℕ) (len : ℕ) (u v : ℤ) : List (ℤ × ℤ) :=
  if 0 < u ∧ u < (w : ℤ) ∧ 0 < v ∧ v < (h : ℤ) then
    let halfLen : ℤ := ((len / 2 : ℕ) : ℤ)
    let rowRange := clipList 0 (h : ℤ) (arange (v - halfLen) (v + halfLen + 1))
    let colRange := clipList 0 (w : ℤ) (arange (u - halfLen) (u + halfLen + 1))
    colRange.map (fun c => (v, c)) ++ rowRange.map (fun r => (r, u))
  else []

/-! ## Claim theorems: constructor, projection formula, camera, drawCross -/

/-- C5: constructing the Jacobian engine with any distortion-model variant other than
the radial-tangential one fails at construction time with the construction error (the
spec's ConfigurationError), before any derivative evaluation: the error is independent
of the block functions. -/
theorem init_rejects_unimplemented_variant (dm : DistortionModel)
    (h : dm ≠ DistortionModel.RadialTangential) :
    ∃ e : ConfigurationError, ∀ blocks : BlockFun × BlockFun,
      ProjectionJacobianInit blocks dm = Except.error e := by
  cases dm with
  | RadialTangential => exact absurd rfl h
  | FishEye =>
      exact ⟨.notImplemented "Fish eye distortion model not yet supported",
        fun _ => rfl⟩

/-- Witness for C5 at the FishEye variant. -/
theorem init_rejects_unimplemented_variant_sample :
    DistortionModel.FishEye ≠ DistortionModel.RadialTangential
    ∧ ∃ e : ConfigurationError, ∀ blocks : BlockFun × BlockFun,
        ProjectionJacobianInit blocks DistortionModel.FishEye = Except.error e :=
  ⟨by decide, init_rejects_unimplemented_variant DistortionModel.FishEye (by decide)⟩

/-- C6: for every camera-frame point with Z ≠ 0, the radial-tangential projection with
the intrinsic matrix layout of jacobian.py maps (X, Y, Z) to exactly the pixel
coordinates of the spec formula: u = α·x_d + γ·y_d + uc and v = β·y_d + vc, with
x_d, y_d built from x = X/Z, y = Y/Z, r² = x² + y², the radial factor
1 + k1·r² + k2·r⁴ + k3·r⁶ and the tangential terms. -/
theorem radTanProjection_formula (α β γ uc vc X Y Z k1 k2 p1 p2 k3 : ℚ)
    (hZ : Z ≠ 0) :
    projectWithDistortion (intrinsicMatrixA α β γ uc vc) (X, Y, Z)
        (k1, k2, p1, p2, k3)
      = (α * (X / Z * (1 + k1 * ((X / Z) ^ 2 + (Y / Z) ^ 2)
              + k2 * ((X / Z) ^ 2 + (Y / Z) ^ 2) ^ 2
              + k3 * ((X / Z) ^ 2 + (Y / Z) ^ 2) ^ 3)
            + 2 * p1 * (X / Z) * (Y / Z)
            + p2 * (((X / Z) ^ 2 + (Y / Z) ^ 2) + 2 * (X / Z) ^ 2))
          + γ * (Y / Z * (1 + k1 * ((X / Z) ^ 2 + (Y / Z) ^ 2)
              + k2 * ((X / Z) ^ 2 + (Y / Z) ^ 2) ^ 2
              + k3 * ((X / Z) ^ 2 + (Y / Z) ^ 2) ^ 3)
            + p1 * (((X / Z) ^ 2 + (Y / Z) ^ 2) + 2 * (Y / Z) ^ 2)
            + 2 * p2 * (X / Z) * (Y / Z))
          + uc,
        β * (Y / Z * (1 + k1 * ((X / Z) ^ 2 + (Y / Z) ^ 2)
              + k2 * ((X / Z) ^ 2 + (Y / Z) ^ 2) ^ 2
              + k3 * ((X / Z) ^ 2 + (Y / Z) ^ 2) ^ 3)
            + p1 * (((X / Z) ^ 2 + (Y / Z) ^ 2) + 2 * (Y / Z) ^ 2)
            + 2 * p2 * (X / Z) * (Y / Z))
          + vc) := by
  have hred : projectWithDistortion (intrinsicMatrixA α β γ uc vc) (X, Y, Z)
        (k1, k2, p1, p2, k3)
      = (α * (X / Z * (1 + k1 * ((X / Z) ^ 2 + (Y / Z) ^ 2)
              + k2 * ((X / Z) ^ 2 + (Y / Z) ^ 2) ^ 2
              + k3 * ((X / Z) ^ 2 + (Y / Z) ^ 2) ^ 3)
            + 2 * p1 * (X / Z) * (Y / Z)
            + p2 * (((X / Z) ^ 2 + (Y / Z) ^ 2) + 2 * (X / Z) ^ 2))
          + γ * (Y / Z * (1 + k1 * ((X / Z) ^ 2 + (Y / Z) ^ 2)
              + k2 * ((X / Z) ^ 2 + (Y / Z) ^ 2) ^ 2
              + k3 * ((X / Z) ^ 2 + (Y / Z) ^ 2) ^ 3)
            + p1 * (((X / Z) ^ 2 + (Y / Z) ^ 2) + 2 * (Y / Z) ^ 2)
            + 2 * p2 * (X / Z) * (Y / Z))
          + uc * 1,
        0 * (X / Z * (1 + k1 * ((X / Z) ^ 2 + (Y / Z) ^ 2)
              + k2 * ((X / Z) ^ 2 + (Y / Z) ^ 2) ^ 2
              + k3 * ((X / Z) ^ 2 + (Y / Z) ^ 2) ^ 3)
            + 2 * p1 * (X / Z) * (Y / Z)
            + p2 * (((X / Z) ^ 2 + (Y / Z) ^ 2) + 2 * (X / Z) ^ 2))
          + β * (Y / Z * (1 + k1 * ((X / Z) ^ 2 + (Y / Z) ^ 2)
              + k2 * ((X / Z) ^ 2 + (Y / Z) ^ 2) ^ 2
              + k3 * ((X / Z) ^ 2 + (Y / Z) ^ 2) ^ 3)
            + p1 * (((X / Z) ^ 2 + (Y / Z) ^ 2) + 2 * (Y / Z) ^ 2)
            + 2 * p2 * (X / Z) * (Y / Z))
          + vc * 1) := rfl
  rw [hred]
  simp only [Prod.mk.injEq]
  constructor <;> ring

/-- Witness for C6 at a concrete point with Z = 1 ≠ 0. -/
theorem radTanProjection_formula_sample :
    (1 : ℚ) ≠ 0
    ∧ projectWithDistortion (intrinsicMatrixA 2 3 0 5 7) (1, 1, 1)
        (0, 0, 0, 0, 0)
      = (2 * (1 / 1 * (1 + 0 * ((1 / 1 : ℚ) ^ 2 + (1 / 1) ^ 2)
              + 0 * ((1 / 1) ^ 2 + (1 / 1) ^ 2) ^ 2
              + 0 * ((1 / 1) ^ 2 + (1 / 1) ^ 2) ^ 3)
            + 2 * 0 * (1 / 1) * (1 / 1)
            + 0 * (((1 / 1) ^ 2 + (1 / 1) ^ 2) + 2 * (1 / 1) ^ 2))
          + 0 * (1 / 1 * (1 + 0 * ((1 / 1) ^ 2 + (1 / 1) ^ 2)
              + 0 * ((1 / 1) ^ 2 + (1 / 1) ^ 2) ^ 2
              + 0 * ((1 / 1) ^ 2 + (1 / 1) ^ 2) ^ 3)
            + 0 * (((1 / 1) ^ 2 + (1 / 1) ^ 2) + 2 * (1 / 1) ^ 2)
            + 2 * 0 * (1 / 1) * (1 / 1))
          + 5,
        3 * (1 / 1 * (1 + 0 * ((1 / 1) ^ 2 + (1 / 1) ^ 2)
              + 0 * ((1 / 1) ^ 2 + (1 / 1) ^ 2) ^ 2
              + 0 * ((1 / 1) ^ 2 + (1 / 1) ^ 2) ^ 3)
            + 0 * (((1 / 1) ^ 2 + (1 / 1) ^ 2) + 2 * (1 / 1) ^ 2)
            + 2 * 0 * (1 / 1) * (1 / 1))
          + 7) :=
  ⟨by decide, radTanProjection_formula 2 3 0 5 7 1 1 1 0 0 0 0 0 (by decide)⟩

/-- C9: the measured detections of a VirtualCamera do not depend on the stored
distortion vector: two cameras agreeing on intrinsic matrix and image size produce
identical measured sensor points and identical returned corner positions for every
projection collaborator, checkerboard and board pose. -/
theorem measureDetectedPoints_ignores_distortion (cam₁ cam₂ : VirtualCamera)
    (hA : cam₁.intrinsicMatrix = cam₂.intrinsicMatrix)
    (hw : cam₁.imageWidth = cam₂.imageWidth)
    (hh : cam₁.imageHeight = cam₂.imageHeight)
    (project : ProjectFun) (cornerPositions : List Pt3)
    (boardPoseInCamera : List (List ℚ)) :
    measureDetectedPoints project cam₁ cornerPositions boardPoseInCamera
      = measureDetectedPoints project cam₂ cornerPositions boardPoseInCamera := by
  simp only [measureDetectedPoints, hA, hw, hh]

/-- Witness for C9: two cameras differing only in the distortion vector measure the
same points. -/
theorem measureDetectedPoints_ignores_distortion_sample :
    (VirtualCamera.mk [[1, 0, 0], [0, 1, 0], [0, 0, 1]] [0, 0, 0, 0, 0] 4 4).intrinsicMatrix
        = (VirtualCamera.mk [[1, 0, 0], [0, 1, 0], [0, 0, 1]] [9, 9, 9, 9, 9] 4 4).intrinsicMatrix
    ∧ measureDetectedPoints (fun _ _ pts => pts.map (fun p => (p.1, p.2.1)))
        (VirtualCamera.mk [[1, 0, 0], [0, 1, 0], [0, 0, 1]] [0, 0, 0, 0, 0] 4 4)
        [(1, 1, 1)] eye4
      = measureDetectedPoints (fun _ _ pts => pts.map (fun p => (p.1, p.2.1)))
        (VirtualCamera.mk [[1, 0, 0], [0, 1, 0], [0, 0, 1]] [9, 9, 9, 9, 9] 4 4)
        [(1, 1, 1)] eye4 :=
  ⟨rfl, measureDetectedPoints_ignores_distortion _ _ rfl rfl rfl _ _ _⟩

/-- C10 (code evaluated at the failing input): on a 10×10 image, drawCross at the
rounded point (u, v) = (5, 9) with length 9 passes the bounds guard yet writes the row
index 10 = h, which is not a valid row index; numpy raises IndexError there.  The
inclusive upper bound of np.clip (clipping to h rather than h - 1) is the slip. -/
theorem drawCross_writes_out_of_bounds :
    ((10 : ℤ), (5 : ℤ)) ∈ drawCrossWrites 10 10 9 5 9 ∧ ¬ ((10 : ℤ) < 10) := by
  decide

/-- C4 (counterexample): with zero views, compute does not fail: it returns the empty
(0-row) matrix, for any parameter vector — here one of length 1 ≠ L + 6·0. -/
theorem compute_zero_views_returns_empty :
    compute (fun _ _ _ _ _ _ => 0) (fun _ _ _ _ _ _ => 0) [(1 : ℚ)] [] = [] := rfl

/-- C4 (amended): compute performs no dimension validation at all; with zero views it
returns the empty matrix, and a view with zero points contributes zero rows (so zero
views with zero points yields an empty result rather than any error). -/
theorem compute_no_dimension_validation (fI fE : BlockFun) (P : List ℚ) :
    compute fI fE P [] = [] ∧ compute fI fE P [[]] = [] :=
  ⟨rfl, rfl⟩

/-! ## Structural lemmas about the assembled Jacobian -/

lemma getD_append_cases {A : Type} (l l2 : List A) (d : A) (n : ℕ) :
    (l ++ l2).getD n d = if n < l.length then l.getD n d else l2.getD (n - l.length) d := by
  split
  · exact List.getD_append _ _ _ _ (by assumption)
  · exact List.getD_append_right _ _ _ _ (by omega)

lemma getD_replicate_zero (n m : ℕ) : (List.replicate n (0 : ℚ)).getD m 0 = 0 := by
  rcases Nat.lt_or_ge m n with h | h
  · rw [List.getD_eq_getElem _ _ (by simpa using h)]
    simp
  · exact List.getD_eq_default _ _ (by simpa using h)

lemma getD_range_map (g : ℕ → ℚ) (n m : ℕ) (h : m < n) :
    ((List.range n).map g).getD m 0 = g m := by
  rw [List.getD_eq_getElem _ _ (by simpa using h)]
  simp

lemma zipWith_flatMap_pairs {A B D : Type} (g : A → A → B) (u₀ u₁ v₀ v₁ : D → A)
    (xs : List D) :
    List.zipWith g (xs.flatMap fun p => [u₀ p, u₁ p]) (xs.flatMap fun p => [v₀ p, v₁ p])
      = xs.flatMap fun p => [g (u₀ p) (v₀ p), g (u₁ p) (v₁ p)] := by
  induction xs with
  | nil => rfl
  | cons x xs ih => simp [List.flatMap_cons, ih]

lemma length_flatMap_pairs {A D : Type} (a b : D → A) (xs : List D) :
    (xs.flatMap fun p => [a p, b p]).length = 2 * xs.length := by
  induction xs with
  | nil => rfl
  | cons x xs ih =>
      simp only [List.flatMap_cons, List.length_append, ih, List.length_cons,
        List.length_nil]
      omega

lemma flatMap_pairs_getD {A D : Type} (a b : D → A) (dflt : A) (pd : D)
    (xs : List D) : ∀ k : ℕ, k < xs.length →
    (xs.flatMap fun p => [a p, b p]).getD (2 * k) dflt = a (xs.getD k pd)
    ∧ (xs.flatMap fun p => [a p, b p]).getD (2 * k + 1) dflt = b (xs.getD k pd) := by
  induction xs with
  | nil => intro k hk; simp at hk
  | cons x xs ih =>
      intro k hk
      cases k with
      | zero => simp [List.flatMap_cons]
      | succ k =>
          have hk2 : k < xs.length := by simpa using hk
          have h1 : 2 * (k + 1) = 2 * k + 1 + 1 := by omega
          have h2 : 2 * (k + 1) + 1 = 2 * k + 1 + 1 + 1 := by omega
          simp only [List.flatMap_cons, List.cons_append, List.nil_append, h1, h2,
            List.getD_cons_succ]
          exact ih k hk2

lemma computeJacobianBlock_eq_flatMap (f : BlockFun) (T : ℕ) (iv ev : List ℚ)
    (mps : List Pt3) :
    computeJacobianBlock f T iv ev mps
      = mps.flatMap (fun p =>
          [(List.range T).map (fun c => evalBlockFun f iv ev p 0 c),
           (List.range T).map (fun c => evalBlockFun f iv ev p 1 c)]) := rfl

lemma computeAux_cons (fI fE : BlockFun) (P iv : List ℚ) (M i : ℕ)
    (mps : List Pt3) (rest : List (List Pt3)) :
    computeAux fI fE P iv M i (mps :: rest)
      = (mps.flatMap fun p =>
          [viewRow fI fE iv
              ((P.drop (numIntrinsicSymbols + i * numExtrinsicParamsPerView)).take
                numExtrinsicParamsPerView) M i p 0,
           viewRow fI fE iv
              ((P.drop (numIntrinsicSymbols + i * numExtrinsicParamsPerView)).take
                numExtrinsicParamsPerView) M i p 1])
        ++ computeAux fI fE P iv M (i + 1) rest := by
  simp only [computeAux, computeJacobianBlock_eq_flatMap, zipWith_flatMap_pairs]
  rfl

lemma computeAux_length (fI fE : BlockFun) (P iv : List ℚ) (M : ℕ) :
    ∀ (vs : List (List Pt3)) (i : ℕ),
      (computeAux fI fE P iv M i vs).length = 2 * (vs.map List.length).sum := by
  intro vs
  induction vs with
  | nil => intro i; rfl
  | cons mps rest ih =>
      intro i
      rw [computeAux_cons, List.length_append, length_flatMap_pairs, ih]
      simp [Nat.mul_add]

lemma viewRow_length (fI fE : BlockFun) (iv ev : List ℚ) (M i : ℕ) (hi : i < M)
    (p : Pt3) (d : ℕ) :
    (viewRow fI fE iv ev M i p d).length
      = numIntrinsicSymbols + numExtrinsicParamsPerView * M := by
  simp only [viewRow, List.length_append, List.length_map, List.length_range,
    List.length_replicate, numIntrinsicSymbols, numExtrinsicParamsPerView]
  omega

lemma computeAux_mem_length (fI fE : BlockFun) (P iv : List ℚ) (M : ℕ) :
    ∀ (vs : List (List Pt3)) (i : ℕ), i + vs.length ≤ M →
      ∀ row ∈ computeAux fI fE P iv M i vs,
        row.length = numIntrinsicSymbols + numExtrinsicParamsPerView * M := by
  intro vs
  induction vs with
  | nil => intro i h row hrow; simp [computeAux] at hrow
  | cons mps rest ih =>
      intro i h row hrow
      have hi : i < M := by
        simp only [List.length_cons] at h
        omega
      rw [computeAux_cons] at hrow
      rcases List.mem_append.1 hrow with h1 | h2
      · rcases List.mem_flatMap.1 h1 with ⟨p, _, hrow2⟩
        simp only [List.mem_cons, List.mem_singleton] at hrow2
        rcases hrow2 with h0 | h0 | h0
        · rw [h0]; exact viewRow_length fI fE _ _ M i hi p 0
        · rw [h0]; exact viewRow_length fI fE _ _ M i hi p 1
        · simp at h0
      · refine ih (i + 1) ?_ row h2
        simp only [List.length_cons] at h
        omega

lemma computeAux_getD (fI fE : BlockFun) (P iv : List ℚ) (M : ℕ) :
    ∀ (vs : List (List Pt3)) (i₀ i k d : ℕ),
      i < vs.length → k < (vs.getD i []).length → d < 2 →
      (computeAux fI fE P iv M i₀ vs).getD (rowStart vs i + 2 * k + d) []
        = viewRow fI fE iv
            ((P.drop (numIntrinsicSymbols + (i₀ + i) * numExtrinsicParamsPerView)).take
              numExtrinsicParamsPerView)
            M (i₀ + i) ((vs.getD i []).getD k ((0 : ℚ), (0 : ℚ), (0 : ℚ))) d := by
  intro vs
  induction vs with
  | nil => intro i₀ i k d hi _ _; simp at hi
  | cons mps rest ih =>
      intro i₀ i k d hi hk hd
      rw [computeAux_cons, getD_append_cases, length_flatMap_pairs]
      cases i with
      | zero =>
          have hk2 : k < mps.length := by simpa using hk
          rw [show rowStart (mps :: rest) 0 = 0 from rfl, Nat.zero_add]
          interval_cases d
          · rw [if_pos (by omega : 2 * k + 0 < 2 * mps.length), Nat.add_zero]
            simp only [Nat.add_zero, List.getD_cons_zero]
            exact (flatMap_pairs_getD _ _ _ ((0 : ℚ), (0 : ℚ), (0 : ℚ)) mps k hk2).1
          · rw [if_pos (by omega : 2 * k + 1 < 2 * mps.length)]
            simp only [Nat.add_zero, List.getD_cons_zero]
            exact (flatMap_pairs_getD _ _ _ ((0 : ℚ), (0 : ℚ), (0 : ℚ)) mps k hk2).2
      | succ i2 =>
          have hi2 : i2 < rest.length := by simpa using hi
          have hk2 : k < (rest.getD i2 []).length := by simpa using hk
          have hrs : rowStart (mps :: rest) (i2 + 1)
              = 2 * mps.length + rowStart rest i2 := by
            simp [rowStart, List.take_succ_cons, Nat.mul_add]
          rw [hrs]
          rw [if_neg (by omega)]
          have hidx : 2 * mps.length + rowStart rest i2 + 2 * k + d - 2 * mps.length
              = rowStart rest i2 + 2 * k + d := by omega
          rw [hidx]
          have hres := ih (i₀ + 1) i2 k d hi2 hk2 hd
          have hadd : i₀ + 1 + i2 = i₀ + (i2 + 1) := by omega
          rw [hadd] at hres
          simpa [List.getD_cons_succ] using hres

lemma viewRow_getD (fI fE : BlockFun) (iv ev : List ℚ) (M i : ℕ) (hi : i < M)
    (p : Pt3) (d c : ℕ) :
    (viewRow fI fE iv ev M i p d).getD c 0
      = if c < 10 then evalBlockFun fI iv ev p d c
        else if 10 + 6 * i ≤ c ∧ c < 10 + 6 * i + 6 then
          evalBlockFun fE iv ev p d (c - (10 + 6 * i))
        else 0 := by
  simp only [viewRow, numIntrinsicSymbols, numExtrinsicParamsPerView]
  rw [getD_append_cases]
  simp only [List.length_append, List.length_map, List.length_range,
    List.length_replicate]
  by_cases h1 : c < 10
  · have o1 : c < 10 + (10 + i * 6 - 10) + 6 := by omega
    have m1 : c < 10 + (10 + i * 6 - 10) := by omega
    rw [if_pos o1]
    rw [getD_append_cases]
    simp only [List.length_append, List.length_map, List.length_range,
      List.length_replicate]
    rw [if_pos m1]
    rw [getD_append_cases]
    simp only [List.length_map, List.length_range]
    rw [if_pos h1, getD_range_map _ _ _ h1, if_pos h1]
  · rw [if_neg h1]
    by_cases h2 : c < 10 + 6 * i
    · have o1 : c < 10 + (10 + i * 6 - 10) + 6 := by omega
      have m1 : c < 10 + (10 + i * 6 - 10) := by omega
      rw [if_pos o1]
      rw [getD_append_cases]
      simp only [List.length_append, List.length_map, List.length_range,
        List.length_replicate]
      rw [if_pos m1]
      rw [getD_append_cases]
      simp only [List.length_map, List.length_range]
      rw [if_neg h1, getD_replicate_zero]
      rw [if_neg (show ¬ (10 + 6 * i ≤ c ∧ c < 10 + 6 * i + 6) by omega)]
    · by_cases h3 : c < 10 + 6 * i + 6
      · have o1 : c < 10 + (10 + i * 6 - 10) + 6 := by omega
        have mneg : ¬ c < 10 + (10 + i * 6 - 10) := by omega
        rw [if_pos o1]
        rw [getD_append_cases]
        simp only [List.length_append, List.length_map, List.length_range,
          List.length_replicate]
        rw [if_neg mneg]
        rw [getD_range_map _ _ _ (show c - (10 + (10 + i * 6 - 10)) < 6 by omega)]
        rw [if_pos (show 10 + 6 * i ≤ c ∧ c < 10 + 6 * i + 6 from ⟨by omega, h3⟩)]
        congr 1
        omega
      · have oneg : ¬ c < 10 + (10 + i * 6 - 10) + 6 := by omega
        rw [if_neg oneg, getD_replicate_zero]
        rw [if_neg (show ¬ (10 + 6 * i ≤ c ∧ c < 10 + 6 * i + 6) by omega)]

lemma compute_entry (fI fE : BlockFun) (P : List ℚ) (vs : List (List Pt3))
    (hP : P.length = 10 + 6 * vs.length)
    (i k d : ℕ) (hi : i < vs.length) (hk : k < (vs.getD i []).length) (hd : d < 2)
    (c : ℕ) :
    entry (compute fI fE P vs) (rowStart vs i + 2 * k + d) c
      = if c < 10 then
          evalBlockFun fI (P.take 10) ((P.drop (10 + 6 * i)).take 6)
            ((vs.getD i []).getD k ((0 : ℚ), (0 : ℚ), (0 : ℚ))) d c
        else if 10 + 6 * i ≤ c ∧ c < 10 + 6 * i + 6 then
          evalBlockFun fE (P.take 10) ((P.drop (10 + 6 * i)).take 6)
            ((vs.getD i []).getD k ((0 : ℚ), (0 : ℚ), (0 : ℚ))) d (c - (10 + 6 * i))
        else 0 := by
  have hM : vs.length ≠ 0 := by omega
  have hiv : intrinsicValuesOf P vs.length = P.take 10 := by
    rw [intrinsicValuesOf, if_neg hM]
    congr 1
    rw [hP]
    simp only [numExtrinsicParamsPerView]
    omega
  unfold compute entry
  rw [hiv]
  rw [computeAux_getD fI fE P (P.take 10) vs.length vs 0 i k d hi hk hd]
  have harg : numIntrinsicSymbols + (0 + i) * numExtrinsicParamsPerView = 10 + 6 * i := by
    simp only [numIntrinsicSymbols, numExtrinsicParamsPerView]
    omega
  rw [harg]
  rw [show numExtrinsicParamsPerView = 6 from rfl]
  rw [viewRow_getD fI fE (P.take 10) ((P.drop (10 + 6 * i)).take 6) vs.length (0 + i)
    (by omega) ((vs.getD i []).getD k ((0 : ℚ), (0 : ℚ), (0 : ℚ))) d c]
  simp only [Nat.zero_add]

/-! ## Claim theorems: shape, sparsity, layout, epsilon -/

/-- C2: for a parameter vector of length L + 6M (L = 10) and M views with Nᵢ model
points each, the assembled Jacobian has exactly 2·ΣNᵢ rows and every row has exactly
L + 6M entries. -/
theorem jacobian_shape (fI fE : BlockFun) (P : List ℚ) (vs : List (List Pt3))
    (hP : P.length = 10 + 6 * vs.length) :
    (compute fI fE P vs).length = 2 * (vs.map List.length).sum
    ∧ ∀ row ∈ compute fI fE P vs, row.length = 10 + 6 * vs.length := by
  constructor
  · exact computeAux_length fI fE P (intrinsicValuesOf P vs.length) vs.length vs 0
  · intro row hrow
    have hlen := computeAux_mem_length fI fE P (intrinsicValuesOf P vs.length)
      vs.length vs 0 (by omega) row hrow
    simpa [numIntrinsicSymbols, numExtrinsicParamsPerView, Nat.mul_comm] using hlen

/-- Witness for C2 at one view with one model point and a parameter vector of
length 16. -/
theorem jacobian_shape_sample :
    (List.replicate 16 (0 : ℚ)).length
        = 10 + 6 * ([[((0 : ℚ), (0 : ℚ), (0 : ℚ))]] : List (List Pt3)).length
    ∧ ((compute (fun _ _ _ _ _ _ => 1) (fun _ _ _ _ _ _ => 2) (List.replicate 16 0)
          [[((0 : ℚ), (0 : ℚ), (0 : ℚ))]]).length
        = 2 * (([[((0 : ℚ), (0 : ℚ), (0 : ℚ))]] : List (List Pt3)).map List.length).sum
      ∧ ∀ row ∈ compute (fun _ _ _ _ _ _ => 1) (fun _ _ _ _ _ _ => 2)
            (List.replicate 16 0) [[((0 : ℚ), (0 : ℚ), (0 : ℚ))]],
          row.length = 10 + 6 * ([[((0 : ℚ), (0 : ℚ), (0 : ℚ))]] : List (List Pt3)).length) :=
  ⟨by decide, jacobian_shape _ _ _ _ (by decide)⟩

/-- C1: block-sparsity.  For any row r of view i, the entries in the extrinsic-column
window of a different view j are exactly zero; more generally only the first 10 columns
and view i's own 6-column window can be nonzero in view i's rows. -/
theorem jacobian_block_sparsity (fI fE : BlockFun) (P : List ℚ)
    (vs : List (List Pt3)) (hP : P.length = 10 + 6 * vs.length)
    (i : ℕ) (hi : i < vs.length) (r : ℕ)
    (hr₁ : rowStart vs i ≤ r) (hr₂ : r < rowStart vs i + 2 * (vs.getD i []).length)
    (c : ℕ) :
    (∀ j, j < vs.length → j ≠ i → 10 + 6 * j ≤ c → c < 10 + 6 * j + 6 →
        entry (compute fI fE P vs) r c = 0)
    ∧ (¬ (c < 10 ∨ (10 + 6 * i ≤ c ∧ c < 10 + 6 * i + 6)) →
        entry (compute fI fE P vs) r c = 0) := by
  have key : ¬ (c < 10 ∨ (10 + 6 * i ≤ c ∧ c < 10 + 6 * i + 6)) →
      entry (compute fI fE P vs) r c = 0 := by
    intro hc
    obtain ⟨t, rfl⟩ : ∃ t, r = rowStart vs i + t := ⟨r - rowStart vs i, by omega⟩
    have hdecomp : rowStart vs i + t = rowStart vs i + 2 * (t / 2) + t % 2 := by omega
    rw [hdecomp]
    rw [compute_entry fI fE P vs hP i (t / 2) (t % 2) hi (by omega) (by omega) c]
    rw [if_neg (by omega), if_neg (by omega)]
  exact ⟨fun j hj hne hc1 hc2 => key (by omega), key⟩

/-- Witness for C1: two views of one point each, P of length 22; the entry of view 0's
first row in view 1's extrinsic window (column 16) is zero. -/
theorem jacobian_block_sparsity_sample :
    (List.replicate 22 (0 : ℚ)).length
        = 10 + 6 * ([[((0 : ℚ), (0 : ℚ), (0 : ℚ))], [((0 : ℚ), (0 : ℚ), (0 : ℚ))]] :
            List (List Pt3)).length
    ∧ entry (compute (fun _ _ _ _ _ _ => 1) (fun _ _ _ _ _ _ => 2)
        (List.replicate 22 0)
        [[((0 : ℚ), (0 : ℚ), (0 : ℚ))], [((0 : ℚ), (0 : ℚ), (0 : ℚ))]]) 0 16 = 0 :=
  ⟨by decide,
    (jacobian_block_sparsity _ _ _ _ (by decide) 0 (by decide) 0 (by decide)
        (by decide) 16).1 1 (by decide) (by decide) (by omega) (by omega)⟩

/-- C3: row and column layout.  Row rowStart(i) + 2k + d of the Jacobian (d = 0 the
u-derivative row, d = 1 the v-derivative row of view i's k-th model point) carries the
intrinsic block in columns [0, 10), evaluated at the shared intrinsic values P[0:10],
and the extrinsic block, evaluated with the six values P[10+6i : 10+6i+6], in columns
[10+6i, 10+6i+6); every other entry of the row is zero. -/
theorem jacobian_row_layout (fI fE : BlockFun) (P : List ℚ) (vs : List (List Pt3))
    (hP : P.length = 10 + 6 * vs.length)
    (i k d : ℕ) (hi : i < vs.length) (hk : k < (vs.getD i []).length) (hd : d < 2)
    (c : ℕ) :
    entry (compute fI fE P vs) (rowStart vs i + 2 * k + d) c
      = if c < 10 then
          evalBlockFun fI (P.take 10) ((P.drop (10 + 6 * i)).take 6)
            ((vs.getD i []).getD k ((0 : ℚ), (0 : ℚ), (0 : ℚ))) d c
        else if 10 + 6 * i ≤ c ∧ c < 10 + 6 * i + 6 then
          evalBlockFun fE (P.take 10) ((P.drop (10 + 6 * i)).take 6)
            ((vs.getD i []).getD k ((0 : ℚ), (0 : ℚ), (0 : ℚ))) d (c - (10 + 6 * i))
        else 0 :=
  compute_entry fI fE P vs hP i k d hi hk hd c

/-- Witness for C3: one view, one point, c = 0 lies in the intrinsic block. -/
theorem jacobian_row_layout_sample :
    (List.replicate 16 (0 : ℚ)).length
        = 10 + 6 * ([[((1 : ℚ), (2 : ℚ), (3 : ℚ))]] : List (List Pt3)).length
    ∧ entry (compute (fun _ _ _ _ _ _ => 1) (fun _ _ _ _ _ _ => 2)
          (List.replicate 16 0) [[((1 : ℚ), (2 : ℚ), (3 : ℚ))]])
        (rowStart [[((1 : ℚ), (2 : ℚ), (3 : ℚ))]] 0 + 2 * 0 + 0) 0
      = if 0 < 10 then
          evalBlockFun (fun _ _ _ _ _ _ => 1) ((List.replicate 16 (0 : ℚ)).take 10)
            (((List.replicate 16 (0 : ℚ)).drop (10 + 6 * 0)).take 6)
            (([[((1 : ℚ), (2 : ℚ), (3 : ℚ))]].getD 0 []).getD 0
              ((0 : ℚ), (0 : ℚ), (0 : ℚ))) 0 0
        else if 10 + 6 * 0 ≤ 0 ∧ 0 < 10 + 6 * 0 + 6 then
          evalBlockFun (fun _ _ _ _ _ _ => 2) ((List.replicate 16 (0 : ℚ)).take 10)
            (((List.replicate 16 (0 : ℚ)).drop (10 + 6 * 0)).take 6)
            (([[((1 : ℚ), (2 : ℚ), (3 : ℚ))]].getD 0 []).getD 0
              ((0 : ℚ), (0 : ℚ), (0 : ℚ))) 0 (0 - (10 + 6 * 0))
        else 0 :=
  ⟨by decide, jacobian_row_layout _ _ _ _ (by decide) 0 0 0 (by decide) (by decide)
    (by omega) 0⟩

/-- C7: before every Jacobian-block evaluation, the constant epsilon = 1e-100 is added
to every parameter value and to every model-point coordinate, and the block function is
evaluated at these perturbed values. -/
theorem jacobianBlock_epsilon_perturbation (f : BlockFun) (T : ℕ) (iv ev : List ℚ)
    (mps : List Pt3) (k d c : ℕ) (hk : k < mps.length) (hd : d < 2) (hc : c < T) :
    ((computeJacobianBlock f T iv ev mps).getD (2 * k + d) []).getD c 0
      = f ((iv ++ ev).map (fun v => v + 1 / 10 ^ 100))
          ((mps.getD k ((0 : ℚ), (0 : ℚ), (0 : ℚ))).1 + 1 / 10 ^ 100)
          ((mps.getD k ((0 : ℚ), (0 : ℚ), (0 : ℚ))).2.1 + 1 / 10 ^ 100)
          ((mps.getD k ((0 : ℚ), (0 : ℚ), (0 : ℚ))).2.2 + 1 / 10 ^ 100) d c
      ∧ epsilon = 1 / 10 ^ 100 := by
  refine ⟨?_, rfl⟩
  rw [computeJacobianBlock_eq_flatMap]
  interval_cases d
  · rw [Nat.add_zero]
    rw [(flatMap_pairs_getD _ _ _ ((0 : ℚ), (0 : ℚ), (0 : ℚ)) mps k hk).1]
    rw [getD_range_map _ _ _ hc]
    rfl
  · rw [(flatMap_pairs_getD _ _ _ ((0 : ℚ), (0 : ℚ), (0 : ℚ)) mps k hk).2]
    rw [getD_range_map _ _ _ hc]
    rfl

/-- Witness for C7 at a one-point block with T = 1. -/
theorem jacobianBlock_epsilon_perturbation_sample :
    (0 : ℕ) < 1
    ∧ (((computeJacobianBlock (fun P _ _ _ _ _ => P.getD 0 0) 1 [(5 : ℚ)] []
          [((1 : ℚ), (2 : ℚ), (3 : ℚ))]).getD (2 * 0 + 0) []).getD 0 0
        = (fun P _ _ _ _ _ => P.getD 0 0) (([(5 : ℚ)] ++ []).map (fun v => v + 1 / 10 ^ 100))
          (((([((1 : ℚ), (2 : ℚ), (3 : ℚ))] : List Pt3).getD 0
              ((0 : ℚ), (0 : ℚ), (0 : ℚ))).1 + 1 / 10 ^ 100))
          (((([((1 : ℚ), (2 : ℚ), (3 : ℚ))] : List Pt3).getD 0
              ((0 : ℚ), (0 : ℚ), (0 : ℚ))).2.1 + 1 / 10 ^ 100))
          (((([((1 : ℚ), (2 : ℚ), (3 : ℚ))] : List Pt3).getD 0
              ((0 : ℚ), (0 : ℚ), (0 : ℚ))).2.2 + 1 / 10 ^ 100)) 0 0
      ∧ epsilon = 1 / 10 ^ 100) :=
  ⟨by decide, jacobianBlock_epsilon_perturbation (fun P _ _ _ _ _ => P.getD 0 0) 1
    [(5 : ℚ)] [] [((1 : ℚ), (2 : ℚ), (3 : ℚ))] 0 0 0 (by decide) (by decide) (by decide)⟩

end ZhangCalibration
